import Mathlib

/-!
Verification of `ultra_fast_port_scanner.py` (behrambzkrr/ultra-fast-port-scanner).

The Python source is shallowly embedded below.  Pure functions of the program
(`batch_ports`, the service lookup, argument validation in `main`) become Lean
functions.  The network is modelled explicitly: a `Net` value says, for each
(address, port), what the AF_INET connect attempt of `scan_port` observes, and
an established connection (`Conn`) carries the bytes `recv` would deliver and
whether the read fails.  Library calls of the source (`socket.inet_pton`,
`str.split`, `int(...)`, `bytes.decode('utf-8', errors='ignore')`,
`str.strip`) are modelled from their documented behaviour on the inputs the
program feeds them.
-/

/-! ## `socket.inet_pton` model: IPv4 dotted-quad and IPv6 literal syntax -/

/-- Model of Python `str.split(sep)` for a one-character separator, on the
character list of the string. -/
def splitOnChar (sep : Char) : List Char → List (List Char)
  | [] => [[]]
  | c :: rest =>
      let r := splitOnChar sep rest
      if c = sep then [] :: r
      else
        match r with
        | [] => [[c]]
        | h :: t => (c :: h) :: t

/-- Split at each occurrence of two consecutive colons: isolates the `::`
abbreviation of an IPv6 literal. -/
def splitOnColonColon : List Char → List (List Char)
  | ':' :: ':' :: rest => [] :: splitOnColonColon rest
  | c :: rest =>
      match splitOnColonColon rest with
      | [] => [[c]]
      | h :: t => (c :: h) :: t
  | [] => [[]]

/-- One dotted-quad component as accepted by `inet_pton(AF_INET, ·)`:
1-3 decimal digits, value ≤ 255, no leading zero. -/
def ipv4PartOK (s : List Char) : Bool :=
  match s with
  | [] => false
  | [c] => c.isDigit
  | c :: rest =>
      (c :: rest).all Char.isDigit && c ≠ '0' && (c :: rest).length ≤ 3 &&
        ((c :: rest).foldl (fun acc d => acc * 10 + (d.toNat - 48)) 0) ≤ 255

/-- Dotted-quad check on a character list. -/
def pton4Chars (l : List Char) : Bool :=
  match splitOnChar '.' l with
  | [a, b, c, d] => ipv4PartOK a && ipv4PartOK b && ipv4PartOK c && ipv4PartOK d
  | _ => false

/-- Model of `socket.inet_pton(AF_INET, s)` succeeding: a strict dotted quad. -/
def pton4 (s : String) : Bool :=
  pton4Chars s.toList

/-- One hexadecimal group of an IPv6 literal: 1-4 hex digits. -/
def ipv6GroupOK (l : List Char) : Bool :=
  l.length ≥ 1 && l.length ≤ 4 &&
    l.all (fun c => c.isDigit || ('a' ≤ c && c ≤ 'f') || ('A' ≤ c && c ≤ 'F'))

/-- Number of 16-bit groups contributed by the final piece of an IPv6 literal:
a hex group counts 1, an embedded IPv4 dotted quad counts 2, else invalid. -/
def ipv6LastGroupCount (l : List Char) : Option Nat :=
  if ipv6GroupOK l then some 1
  else if pton4Chars l then some 2
  else none

/-- Count the groups of a colon-separated list, where only the last entry may
be an embedded IPv4 address. Returns `none` if any entry is malformed. -/
def ipv6GroupsCount (parts : List (List Char)) : Option Nat :=
  match parts with
  | [] => some 0
  | [last] => ipv6LastGroupCount last
  | g :: rest =>
      if ipv6GroupOK g then (ipv6GroupsCount rest).map (· + 1) else none

/-- Model of `socket.inet_pton(AF_INET6, s)` succeeding: at most one `::`;
without `::` exactly 8 groups, with `::` at most 7 groups on the two sides
combined (the `::` expands to at least one zero group); an IPv4 dotted quad
may stand for the final two groups. -/
def pton6 (s : String) : Bool :=
  match splitOnColonColon s.toList with
  | [whole] =>
      (match ipv6GroupsCount (splitOnChar ':' whole) with
       | some n => n = 8
       | none => false)
  | [l, r] =>
      let lparts := if l = [] then [] else splitOnChar ':' l
      let rparts := if r = [] then [] else splitOnChar ':' r
      (match ipv6GroupsCount lparts, ipv6GroupsCount rparts with
       | some a, some b => a + b ≤ 7
       | _, _ => false)
  | _ => false

/-- Embedding of `validate_ip` (source lines 39-47): true iff the string is a
well-formed IPv4 or IPv6 literal, trying AF_INET first, then AF_INET6. -/
def validate_ip (ip : String) : Bool :=
  pton4 ip || pton6 ip

/-! ## Python `int(...)` and the port-specification parse of `main` -/

/-- Model of Python `int(s)` for ASCII input: optional surrounding whitespace,
optional sign, then decimal digits with single underscores allowed between
digits. Returns `none` where Python raises `ValueError`. -/
def pyDigitsVal : List Char → Option Nat
  | [] => none
  | l =>
      let rec go : List Char → Bool → Option Nat → Option Nat
        | [], lastWasDigit, acc => if lastWasDigit then acc else none
        | c :: rest, lastWasDigit, acc =>
            if c.isDigit then
              go rest true (acc.map (fun a => a * 10 + (c.toNat - 48)))
            else if c = '_' then
              if lastWasDigit then go rest false acc else none
            else none
      go l false (some 0)

/-- Whitespace characters stripped by Python's `int` / `str.strip` (ASCII). -/
def pyIsSpace (c : Char) : Bool :=
  c = ' ' || c = '\t' || c = '\n' || c = '\r' || c = '\x0b' || c = '\x0c'

/-- Strip `pyIsSpace` characters from both ends of a character list. -/
def pyStripList (l : List Char) : List Char :=
  ((l.dropWhile pyIsSpace).reverse.dropWhile pyIsSpace).reverse

/-- Model of Python `int(s)` on a character list, `none` where Python raises. -/
def pyIntChars (chars : List Char) : Option Int :=
  match pyStripList chars with
  | '-' :: rest => (pyDigitsVal rest).map (fun n => -(n : Int))
  | '+' :: rest => (pyDigitsVal rest).map (fun n => (n : Int))
  | l => (pyDigitsVal l).map (fun n => (n : Int))

/-- Model of Python `int(s)` on a string. -/
def pyInt (s : String) : Option Int :=
  pyIntChars s.toList

/-- Embedding of the port-specification parse of `main` (source lines 140-146):
if the string contains `-` it must split into exactly two `int`-parseable
pieces; otherwise it is a single port used as both ends.  `none` models the
caught `ValueError` (the "Invalid port range" diagnostic). -/
def parsePorts (s : String) : Option (Int × Int) :=
  if s.toList.contains '-' then
    match splitOnChar '-' s.toList with
    | [a, b] =>
        match pyIntChars a, pyIntChars b with
        | some x, some y => some (x, y)
        | _, _ => none
    | _ => none
  else
    (pyInt s).map (fun p => (p, p))

/-! ## The static service table (source lines 16-23) -/

/-- Embedding of `COMMON_PORTS`: the static well-known-port table. -/
def COMMON_PORTS : List (Nat × String) :=
  [(21, "FTP"), (22, "SSH"), (23, "Telnet"), (25, "SMTP"), (53, "DNS"),
   (80, "HTTP"), (110, "POP3"), (143, "IMAP"), (443, "HTTPS"),
   (445, "SMB"), (993, "IMAPS"), (995, "POP3S"), (1433, "MSSQL"),
   (1521, "Oracle"), (3306, "MySQL"), (3389, "RDP"), (5432, "PostgreSQL"),
   (5900, "VNC"), (6379, "Redis"), (8080, "HTTP-Alt"), (8443, "HTTPS-Alt"),
   (27017, "MongoDB"), (11211, "Memcached")]

/-- Embedding of `COMMON_PORTS.get(port, 'Unknown')` (source line 70). -/
def lookupService (port : Nat) : String :=
  ((COMMON_PORTS.lookup port).getD "Unknown")

/-! ## `bytes.decode('utf-8', errors='ignore')` and banner reading -/

/-- Is `b` a UTF-8 continuation byte (`0x80..0xBF`)? -/
def isCont (b : Nat) : Bool := 0x80 ≤ b && b ≤ 0xBF

/-- Decode one UTF-8 sequence starting with byte `b`, the remaining bytes
being `rest`.  Returns the code point and the bytes left after the sequence;
`none` if no valid sequence starts at `b` (the byte is then dropped, the
`errors='ignore'` policy of source line 88). -/
def utf8Step (b : Nat) (rest : List Nat) : Option (Nat × List Nat) :=
  if b < 0x80 then some (b, rest)
  else if 0xC2 ≤ b && b ≤ 0xDF then
    match rest with
    | c1 :: r => if isCont c1 then some ((b - 0xC0) * 0x40 + (c1 - 0x80), r) else none
    | _ => none
  else if 0xE0 ≤ b && b ≤ 0xEF then
    match rest with
    | c1 :: c2 :: r =>
        let c1ok := if b = 0xE0 then 0xA0 ≤ c1 && c1 ≤ 0xBF
                    else if b = 0xED then 0x80 ≤ c1 && c1 ≤ 0x9F
                    else isCont c1
        if c1ok && isCont c2 then
          some ((b - 0xE0) * 0x1000 + (c1 - 0x80) * 0x40 + (c2 - 0x80), r)
        else none
    | _ => none
  else if 0xF0 ≤ b && b ≤ 0xF4 then
    match rest with
    | c1 :: c2 :: c3 :: r =>
        let c1ok := if b = 0xF0 then 0x90 ≤ c1 && c1 ≤ 0xBF
                    else if b = 0xF4 then 0x80 ≤ c1 && c1 ≤ 0x8F
                    else isCont c1
        if c1ok && isCont c2 && isCont c3 then
          some ((b - 0xF0) * 0x40000 + (c1 - 0x80) * 0x1000 + (c2 - 0x80) * 0x40 + (c3 - 0x80), r)
        else none
    | _ => none
  else none

/-- Fuel-driven UTF-8 decoding loop; each iteration consumes at least one
byte, so fuel equal to the byte count never runs out. -/
def utf8DecodeGo : Nat → List Nat → List Char
  | 0, _ => []
  | _, [] => []
  | fuel + 1, b :: rest =>
      match utf8Step b rest with
      | some (cp, after) => Char.ofNat cp :: utf8DecodeGo fuel after
      | none => utf8DecodeGo fuel rest

/-- Model of `bytes.decode('utf-8', errors='ignore')`: decode valid UTF-8
sequences, drop bytes at which no valid sequence starts, never fail. -/
def utf8DecodeIgnore (bytes : List Nat) : List Char :=
  utf8DecodeGo bytes.length bytes

/-- An established TCP connection as `get_banner` observes it: the bytes the
peer has sent (what `recv` would deliver), and whether a `recv` with the given
timeout in seconds fails (timeout elapsed or socket error). -/
structure Conn where
  pending : List Nat
  recvFailsAt : Nat → Bool

/-- Embedding of `get_banner` (source lines 84-90): set a 1-second timeout,
read at most 1024 bytes, decode tolerantly, strip whitespace; any failure
yields the empty string. -/
def get_banner (c : Conn) : String :=
  if c.recvFailsAt 1 then ""
  else String.mk (pyStripList (utf8DecodeIgnore (c.pending.take 1024)))

/-! ## The network model and `scan_port` -/

/-- Outcome of the AF_INET connect attempt of `scan_port` (source lines
52-68): an exception other than `BlockingIOError` escapes the inner handler
(`raised`, caught by the outer handler at line 80); or the poll loop never
sees `connect_ex == 0` before the timeout (`refusedOrTimeout`); or the
connection completes (`connected`). -/
inductive ConnectResult
  | raised
  | refusedOrTimeout
  | connected (c : Conn)

/-- The network as one scan invocation observes it.  `connect4 ip port` is
the outcome of `scan_port`'s AF_INET connect to `(ip, port)` (the connect
timeout of the source is absorbed here: it only determines which connects
complete in time).  `now` models `datetime.now()`.  `afInetRejectsNonV4` is
the modelled OS fact behind source line 52: an `AF_INET` socket's `connect`
raises `socket.gaierror` when the address string is an IPv6 literal, since a
v6 literal cannot be resolved into an `AF_INET` socket address. -/
structure Net where
  connect4 : String → Nat → ConnectResult
  now : Nat
  afInetRejectsNonV4 : ∀ ip port, pton4 ip = false → pton6 ip = true →
    connect4 ip port = ConnectResult.raised

/-- The dictionary `scan_port` returns on success (source lines 72-79). -/
structure ProbeResult where
  ip : String
  port : Nat
  status : String
  service : String
  banner : String
  timestamp : Nat
  deriving DecidableEq, Repr

/-- Embedding of `scan_port` (source lines 49-82): on a completed connect,
look up the service, capture a banner only for recognized services, and
return the populated record; on a raised exception or an unready socket,
return `None`. -/
def scan_port (net : Net) (ip : String) (port : Nat) : Option ProbeResult :=
  match net.connect4 ip port with
  | ConnectResult.raised => none
  | ConnectResult.refusedOrTimeout => none
  | ConnectResult.connected c =>
      let service := lookupService port
      let banner := if service ≠ "Unknown" then get_banner c else ""
      some ⟨ip, port, "open", service, banner, net.now⟩

/-- Embedding of `port_scan_worker` (source lines 92-99): scan each port of
the batch in order, appending each non-`None` result to the shared list
(the append is under `results_lock` in the source). -/
def port_scan_worker (net : Net) (ip : String) (ports : List Nat)
    (results : List ProbeResult) : List ProbeResult :=
  ports.foldl (fun acc port =>
    match scan_port net ip port with
    | some r => acc ++ [r]
    | none => acc) results

/-! ## `batch_ports`, `fast_scan` and `main` -/

/-- Model of Python `range(0, stop, step)` for `step ≥ 1`: the indices
`0, step, 2*step, …` below `stop`. -/
def pyRangeStep (stop step : Nat) : List Nat :=
  (List.range ((stop + step - 1) / step)).map (fun k => k * step)

/-- Embedding of `batch_ports` (source lines 101-104):
`ports = list(range(start, end+1))` sliced as `ports[i:i+batch_size]` for
`i in range(0, len(ports), batch_size)`.  When `batch_size = 0` Python's
`range` raises `ValueError: range() arg 3 must not be zero`, modelled as the
error case. -/
def batch_ports (start end_ : Nat) (batch_size : Nat) : Except String (List (List Nat)) :=
  let ports := List.range' start (end_ + 1 - start)
  if batch_size = 0 then Except.error "ValueError: range() arg 3 must not be zero"
  else Except.ok ((pyRangeStep ports.length batch_size).map
    (fun i => (ports.drop i).take batch_size))

/-- Embedding of `fast_scan` (source lines 106-115): batch the range with
`batch_size = max_threads // 2` and run a worker per batch, all appending to
the one results list passed in (the process-global `scan_results` in the
source).  The thread pool is sequentialized here; the interleaving model for
the concurrency claim is separate. -/
def fast_scan (net : Net) (ip : String) (start_port end_port : Nat)
    (max_threads : Nat) (results : List ProbeResult) : Except String (List ProbeResult) :=
  match batch_ports start_port end_port (max_threads / 2) with
  | Except.error e => Except.error e
  | Except.ok batches =>
      Except.ok (batches.foldl (fun acc batch => port_scan_worker net ip batch acc) results)

/-- Observable outcome of one `main` invocation (source lines 134-163). -/
inductive MainOutcome
  | invalidIP
  | invalidPorts
  | invalidRange
  | crashed (msg : String)
  | scanned (results : List ProbeResult)
  deriving DecidableEq

/-- Embedding of `main` (source lines 134-163) on a fresh process (the
global `scan_results` starts empty): validate the address, parse the port
specification, check bounds, clamp the thread count to `[1, 500]`, then run
`fast_scan`.  The `banner` argument is the parsed `--banner` flag (source
line 131); the body reproduces the source, which never reads it. -/
def main_model (net : Net) (ip ports : String) (threads : Int) (banner : Bool) : MainOutcome :=
  if !(validate_ip ip) then MainOutcome.invalidIP
  else
    match parsePorts ports with
    | none => MainOutcome.invalidPorts
    | some (s, e) =>
        if s < 1 || e > 65535 || s > e then MainOutcome.invalidRange
        else
          let th := min (max threads 1) 500
          match fast_scan net ip s.toNat e.toNat th.toNat [] with
          | Except.error m => MainOutcome.crashed m
          | Except.ok rs => MainOutcome.scanned rs

/-! ## The interleaving model for the concurrent workers

`fast_scan` submits one `port_scan_worker` per batch to a thread pool; the
only shared mutable state is the results list, and each append runs under
`results_lock` (source lines 97-98), so appends are atomic and a concurrent
execution is an arbitrary interleaving of the workers' append events.
`concurrent.futures.wait` (source line 115) means the list is read only once
every worker has finished, i.e. on a complete schedule. -/

/-- State of a concurrent scan: per-worker queues of records still to be
appended, and the shared results list. -/
structure SchedState where
  queues : List (List ProbeResult)
  shared : List ProbeResult

/-- One scheduling step: worker `i` (if it still has records) appends its
next record to the shared list.  The append is atomic, which models the
`results_lock`-protected append of source lines 97-98. -/
def schedStep (s : SchedState) (i : Nat) : SchedState :=
  match s.queues.getD i [] with
  | [] => s
  | r :: rest => ⟨s.queues.set i rest, s.shared ++ [r]⟩

/-- Run a whole schedule (an arbitrary interleaving of worker steps). -/
def runSched (s : SchedState) (sched : List Nat) : SchedState :=
  sched.foldl schedStep s

/-- A schedule is complete when afterwards every worker queue is empty:
this is the join of `concurrent.futures.wait` before results are read. -/
def schedComplete (s : SchedState) (sched : List Nat) : Bool :=
  (runSched s sched).queues.all List.isEmpty

/-! ## Recursive chunking, equivalent to the slicing of `batch_ports` -/

/-- Chunks of size `bs1 + 1`, recursively: the canonical form of the slicing
comprehension in `batch_ports` (the `+ 1` keeps the size positive). -/
def chunkRec (bs1 : Nat) : List Nat → List (List Nat)
  | [] => []
  | a :: l => (a :: l).take (bs1 + 1) :: chunkRec bs1 (l.drop bs1)
termination_by l => l.length
decreasing_by simp [List.length_drop]; omega

/-- Strong-induction principle matching the recursion of `chunkRec`. -/
theorem chunk_induction (bs1 : Nat) (P : List Nat → Prop) (h0 : P [])
    (hstep : ∀ a t, P (t.drop bs1) → P (a :: t)) : ∀ l, P l := by
  have key : ∀ n l, List.length l ≤ n → P l := by
    intro n
    induction n with
    | zero =>
        intro l h
        cases l with
        | nil => exact h0
        | cons a t => simp at h
    | succ n ih =>
        intro l h
        cases l with
        | nil => exact h0
        | cons a t =>
            refine hstep a t (ih _ ?_)
            simp only [List.length_drop]
            simp at h
            omega
  exact fun l => key l.length l le_rfl

/-- Flattening the chunks restores the original list. -/
theorem chunkRec_flatten (bs1 : Nat) : ∀ l : List Nat, (chunkRec bs1 l).flatten = l := by
  refine chunk_induction bs1 _ ?_ ?_
  · rw [chunkRec]
    rfl
  · intro a t ih
    rw [chunkRec, List.flatten_cons, ih, List.take_succ_cons]
    have := List.take_append_drop bs1 t
    simp [this]

/-- Every chunk has at most `bs1 + 1` elements and is nonempty. -/
theorem chunkRec_mem_len (bs1 : Nat) :
    ∀ l : List Nat, ∀ b ∈ chunkRec bs1 l, b.length ≤ bs1 + 1 ∧ b ≠ [] := by
  refine chunk_induction bs1 _ ?_ ?_
  · intro b hb
    rw [chunkRec] at hb
    simp at hb
  · intro a t ih b hb
    rw [chunkRec] at hb
    rcases List.mem_cons.mp hb with h | h
    · subst h
      constructor
      · simpa using Nat.min_le_left _ _
      · simp [List.take_succ_cons]
    · exact ih b h

/-- Every chunk except possibly the last has exactly `bs1 + 1` elements. -/
theorem chunkRec_dropLast_len (bs1 : Nat) :
    ∀ l : List Nat, ∀ b ∈ (chunkRec bs1 l).dropLast, b.length = bs1 + 1 := by
  refine chunk_induction bs1 _ ?_ ?_
  · intro b hb
    rw [chunkRec] at hb
    simp at hb
  · intro a t ih b hb
    rw [chunkRec] at hb
    cases hdrop : t.drop bs1 with
    | nil =>
        rw [hdrop, chunkRec] at hb
        simp at hb
    | cons x xs =>
        rw [hdrop, chunkRec] at hb
        rw [List.dropLast_cons₂] at hb
        rcases List.mem_cons.mp hb with h | h
        · subst h
          have hlen : bs1 < t.length := by
            by_contra hc
            push_neg at hc
            have : t.drop bs1 = [] := List.drop_eq_nil_of_le hc
            rw [this] at hdrop
            exact List.noConfusion hdrop
          rw [List.length_take]
          simp only [List.length_cons]
          omega
        · have := ih b
          rw [hdrop, chunkRec] at this
          exact this h

/-- Counting arithmetic for the index list of `batch_ports`. -/
theorem countCeil_succ (len bs : Nat) (hbs : 1 ≤ bs) (hlen : 1 ≤ len) :
    (len + bs - 1) / bs = (len - bs + bs - 1) / bs + 1 := by
  rcases le_or_lt len bs with hle | hlt
  · have e1 : len - bs = 0 := Nat.sub_eq_zero_of_le hle
    have e2 : len + bs - 1 = (len - 1) + bs := by omega
    rw [e1, e2, Nat.add_div_right _ (by omega : 0 < bs)]
    have e3 : (len - 1) / bs = 0 := Nat.div_eq_of_lt (by omega)
    have e4 : 0 + bs - 1 = bs - 1 := by omega
    rw [e3, e4, Nat.div_eq_of_lt (by omega)]
  · have e : len - bs + bs - 1 + bs = len + bs - 1 := by omega
    rw [← e, Nat.add_div_right _ (by omega : 0 < bs)]

/-- The empty index list when there is nothing to slice. -/
theorem pyRangeStep_zero (step : Nat) (h : 1 ≤ step) : pyRangeStep 0 step = [] := by
  unfold pyRangeStep
  have h0 : (0 + step - 1) / step = 0 := Nat.div_eq_of_lt (by omega)
  rw [h0]
  simp

/-- Unrolling the index list of `batch_ports` by one slice. -/
theorem pyRangeStep_succ (len step : Nat) (hs : 1 ≤ step) (hl : 1 ≤ len) :
    pyRangeStep len step = 0 :: (pyRangeStep (len - step) step).map (· + step) := by
  unfold pyRangeStep
  rw [countCeil_succ len step hs hl, List.range_succ_eq_map]
  simp only [List.map_cons, List.map_map, Nat.zero_mul]
  congr 1
  refine List.map_congr_left ?_
  intro k _
  simp [Function.comp, Nat.succ_mul, Nat.add_comm]

/-- The slicing comprehension of `batch_ports` computes `chunkRec`. -/
theorem sliceMap_eq_chunkRec (bs : Nat) (hbs : 1 ≤ bs) :
    ∀ (n : Nat) (l : List Nat), l.length ≤ n →
      (pyRangeStep l.length bs).map (fun i => (l.drop i).take bs) = chunkRec (bs - 1) l := by
  intro n
  induction n with
  | zero =>
      intro l hl
      have hnil : l = [] := List.eq_nil_of_length_eq_zero (by omega)
      subst hnil
      simp only [List.length_nil]
      rw [pyRangeStep_zero bs hbs, chunkRec]
      rfl
  | succ n ih =>
      intro l hl
      cases l with
      | nil =>
          simp only [List.length_nil]
          rw [pyRangeStep_zero bs hbs, chunkRec]
          rfl
      | cons a t =>
          rw [pyRangeStep_succ (a :: t).length bs hbs (by simp)]
          rw [List.map_cons, List.map_map]
          have hlen : (a :: t).length - bs = ((a :: t).drop bs).length := by
            simp [List.length_drop]
          rw [hlen]
          have hcomp :
              ((fun i => ((a :: t).drop i).take bs) ∘ (· + bs))
                = fun i => (((a :: t).drop bs).drop i).take bs := by
            funext i
            simp [List.drop_drop, Nat.add_comm]
          rw [hcomp]
          have harg : ((a :: t).drop bs).length ≤ n := by
            simp only [List.length_drop, List.length_cons]
            have hl2 : t.length + 1 ≤ n + 1 := by simpa using hl
            omega
          rw [ih ((a :: t).drop bs) harg]
          rw [chunkRec]
          congr 1
          · simp [Nat.sub_add_cancel hbs]
          · congr 1
            have : bs - 1 + 1 = bs := Nat.sub_add_cancel hbs
            rw [← this]
            rfl

/-! ## Properties of the whitespace strip -/

/-- `dropWhile` is idempotent. -/
theorem dropWhile_dropWhile (p : Char → Bool) :
    ∀ l : List Char, (l.dropWhile p).dropWhile p = l.dropWhile p := by
  intro l
  induction l with
  | nil => rfl
  | cons a t ih =>
      by_cases h : p a
      · simp [List.dropWhile_cons, h, ih]
      · simp [List.dropWhile_cons, h]

/-- The head surviving a `dropWhile` fails the predicate. -/
theorem dropWhile_head_false (p : Char → Bool) :
    ∀ (l : List Char) (a : Char) (t : List Char), l.dropWhile p = a :: t → p a = false := by
  intro l
  induction l with
  | nil => intro a t h; exact List.noConfusion h
  | cons x xs ih =>
      intro a t h
      by_cases hx : p x
      · rw [List.dropWhile_cons, if_pos hx] at h
        exact ih a t h
      · rw [List.dropWhile_cons, if_neg hx] at h
        cases h
        simpa using hx

/-- Dropping a prefix never erases a final element failing the predicate. -/
theorem dropWhile_concat_ne (p : Char → Bool) (a : Char) (h : p a = false) :
    ∀ xs : List Char, (xs ++ [a]).dropWhile p ≠ [] ∧
      ((xs ++ [a]).dropWhile p).getLast? = some a := by
  intro xs
  induction xs with
  | nil =>
      simp only [List.nil_append, List.dropWhile_cons, h]
      simp
  | cons y ys ih =>
      by_cases hy : p y
      · simpa [List.dropWhile_cons, hy] using ih
      · constructor
        · simp [List.dropWhile_cons, hy]
        · rw [List.cons_append, List.dropWhile_cons, if_neg hy]
          rw [show y :: (ys ++ [a]) = (y :: ys) ++ [a] from rfl]
          exact List.getLast?_concat _

/-- Stripping is idempotent: the output of `pyStripList` is trimmed. -/
theorem pyStripList_idem : ∀ l : List Char, pyStripList (pyStripList l) = pyStripList l := by
  intro l
  unfold pyStripList
  set p := pyIsSpace with hp
  set A := l.dropWhile p with hA
  set w := A.reverse.dropWhile p with hw
  have hstable : w.reverse.dropWhile p = w.reverse := by
    cases hAc : A with
    | nil => simp [hw, hAc]
    | cons a t =>
        have hpa : p a = false := dropWhile_head_false p l a t (hA ▸ hAc)
        have hrev : A.reverse = t.reverse ++ [a] := by simp [hAc]
        obtain ⟨hne, hlast⟩ := dropWhile_concat_ne p a hpa t.reverse
        have hlast' : w.getLast? = some a := by rw [hw, hrev]; exact hlast
        have hne' : w ≠ [] := by rw [hw, hrev]; exact hne
        cases hwr : w.reverse with
        | nil =>
            exact absurd (by simpa using congrArg List.reverse hwr) hne'
        | cons s0 ss =>
            have hhead : w.reverse.head? = some a := by
              rw [List.head?_reverse]; exact hlast'
            rw [hwr] at hhead
            have hs0 : s0 = a := by simpa using hhead
            rw [List.dropWhile_cons, hs0, if_neg (by simp [hpa])]
  rw [hstable]
  rw [List.reverse_reverse]
  rw [hw, dropWhile_dropWhile]

/-! ## Worker and coordinator equations -/

/-- A worker's fold is exactly append-of-filterMap: every port of the batch
is probed, each successful probe appends one record, failed probes are
skipped without aborting the iteration. -/
theorem port_scan_worker_eq (net : Net) (ip : String) :
    ∀ (ports : List Nat) (results : List ProbeResult),
      port_scan_worker net ip ports results
        = results ++ ports.filterMap (scan_port net ip) := by
  intro ports
  induction ports with
  | nil => intro results; simp [port_scan_worker]
  | cons a t ih =>
      intro results
      simp only [port_scan_worker] at ih ⊢
      rw [List.foldl_cons]
      cases h : scan_port net ip a with
      | none =>
          simp only [h]
          rw [ih, List.filterMap_cons, h]
      | some r =>
          simp only [h]
          rw [ih, List.filterMap_cons, h]
          simp

/-- Folding the workers over all batches appends exactly the successful
probes of the concatenation of the batches. -/
theorem worker_fold_eq (net : Net) (ip : String) :
    ∀ (batches : List (List Nat)) (results : List ProbeResult),
      batches.foldl (fun acc batch => port_scan_worker net ip batch acc) results
        = results ++ batches.flatten.filterMap (scan_port net ip) := by
  intro batches
  induction batches with
  | nil => intro results; simp
  | cons b bs ih =>
      intro results
      rw [List.foldl_cons, ih, port_scan_worker_eq, List.flatten_cons,
        List.filterMap_append, List.append_assoc]

/-- When the derived batch size is nonzero, `fast_scan` succeeds and appends
exactly the successful probes of the batched range. -/
theorem fast_scan_ok_eq (net : Net) (ip : String) (s e th : Nat)
    (results : List ProbeResult) (hth : th / 2 ≠ 0) :
    ∃ batches, batch_ports s e (th / 2) = Except.ok batches ∧
      fast_scan net ip s e th results
        = Except.ok (results ++ batches.flatten.filterMap (scan_port net ip)) := by
  set bt := (pyRangeStep (List.range' s (e + 1 - s)).length (th / 2)).map
    (fun i => ((List.range' s (e + 1 - s)).drop i).take (th / 2)) with hbt
  have hb : batch_ports s e (th / 2) = Except.ok bt := by
    simp only [batch_ports]
    rw [if_neg hth]
  refine ⟨bt, hb, ?_⟩
  unfold fast_scan
  rw [hb]
  show Except.ok (bt.foldl (fun acc batch => port_scan_worker net ip batch acc) results) = _
  rw [worker_fold_eq]

/-- No entry of the static service table carries the value "Unknown". -/
theorem lookup_unknown_iff :
    ∀ (l : List (Nat × String)), (∀ pr ∈ l, pr.2 ≠ "Unknown") →
      ∀ p : Nat, ((l.lookup p).getD "Unknown" = "Unknown" ↔ p ∉ l.map Prod.fst) := by
  intro l
  induction l with
  | nil => intro _ p; simp [List.lookup]
  | cons kv rest ih =>
      intro hval p
      obtain ⟨k, v⟩ := kv
      by_cases hpk : p = k
      · subst hpk
        have hv : v ≠ "Unknown" := hval (p, v) (List.mem_cons_self _ _)
        simp [List.lookup, hv]
      · have hbeq : (p == k) = false := by
          simp [hpk]
        simp only [List.lookup, hbeq]
        rw [ih (fun pr hpr => hval pr (List.mem_cons_of_mem _ hpr)) p]
        simp [hpk]

/-! ## Permutation invariant of the interleaved appends -/

/-- One scheduling step preserves the multiset of records split between the
shared list and the outstanding queues. -/
theorem schedStep_perm (s : SchedState) (i : Nat) :
    ((schedStep s i).shared ++ (schedStep s i).queues.flatten).Perm
      (s.shared ++ s.queues.flatten) := by
  unfold schedStep
  cases hq : s.queues.getD i [] with
  | nil => exact List.Perm.refl _
  | cons r rest =>
      simp only
      have hi : i < s.queues.length := by
        by_contra hc
        push_neg at hc
        rw [List.getD_eq_getElem?_getD, List.getElem?_eq_none hc] at hq
        exact List.noConfusion hq
      have hget : s.queues[i] = r :: rest := by
        rw [List.getD_eq_getElem?_getD, List.getElem?_eq_getElem hi] at hq
        simpa using hq
      have hdecomp : s.queues = s.queues.take i ++ (r :: rest) :: s.queues.drop (i + 1) := by
        conv_lhs => rw [← List.take_append_drop i s.queues]
        rw [List.drop_eq_getElem_cons hi, hget]
      have hset : s.queues.set i rest = s.queues.take i ++ rest :: s.queues.drop (i + 1) := by
        rw [List.set_eq_take_append_cons_drop, if_pos hi]
      rw [hset]
      conv_rhs => rw [hdecomp]
      rw [List.perm_iff_count]
      intro x
      simp only [List.flatten_append, List.flatten_cons, List.count_append, List.count_cons,
        List.count_nil]
      ring

/-- Running any schedule preserves the multiset of records. -/
theorem runSched_perm (sched : List Nat) :
    ∀ s : SchedState,
      ((runSched s sched).shared ++ (runSched s sched).queues.flatten).Perm
        (s.shared ++ s.queues.flatten) := by
  induction sched with
  | nil => intro s; exact List.Perm.refl _
  | cons i rest ih =>
      intro s
      have h1 := ih (schedStep s i)
      have h2 := schedStep_perm s i
      exact List.Perm.trans (by simpa [runSched] using h1) h2

/-- On a complete schedule every queue has drained. -/
theorem schedComplete_flatten_nil (s : SchedState) (sched : List Nat)
    (h : schedComplete s sched = true) : (runSched s sched).queues.flatten = [] := by
  unfold schedComplete at h
  rw [List.all_eq_true] at h
  rw [List.flatten_eq_nil_iff]
  intro l hl
  have := h l hl
  simpa [List.isEmpty_iff] using this

/-! ## Concrete networks used for evaluation -/

/-- A connection whose peer immediately sends `"SSH-2.0\r\n"` and whose
reads never fail. -/
def exampleConn : Conn :=
  ⟨[83, 83, 72, 45, 50, 46, 48, 13, 10], fun _ => false⟩

/-- A test network: IPv6 literals raise on the AF_INET socket (the modelled
OS behaviour); on `127.0.0.1`, port 22 accepts and serves `exampleConn`,
port 9 makes `connect` raise, every other port is refused. -/
def exampleNet : Net where
  connect4 := fun ip port =>
    if pton4 ip = false && pton6 ip = true then ConnectResult.raised
    else if ip = "127.0.0.1" && port = 22 then ConnectResult.connected exampleConn
    else if ip = "127.0.0.1" && port = 9 then ConnectResult.raised
    else ConnectResult.refusedOrTimeout
  now := 0
  afInetRejectsNonV4 := by
    intro ip port h4 h6
    simp [h4, h6]

/-- The record `scan_port` produces for `127.0.0.1:22` on `exampleNet`. -/
def sshRecord : ProbeResult :=
  ⟨"127.0.0.1", 22, "open", "SSH", "SSH-2.0", 0⟩

/-- Decidable equality for `Except`, used to evaluate scan outcomes. -/
instance {ε α : Type} [DecidableEq ε] [DecidableEq α] : DecidableEq (Except ε α) := fun x y =>
  match x, y with
  | Except.error a, Except.error b =>
      if h : a = b then Decidable.isTrue (by rw [h])
      else Decidable.isFalse (by intro hc; cases hc; exact h rfl)
  | Except.error _, Except.ok _ => Decidable.isFalse (by intro hc; cases hc)
  | Except.ok _, Except.error _ => Decidable.isFalse (by intro hc; cases hc)
  | Except.ok a, Except.ok b =>
      if h : a = b then Decidable.isTrue (by rw [h])
      else Decidable.isFalse (by intro hc; cases hc; exact h rfl)

/-! ## The claims -/

/-- C1: for every valid PortRange (1 ≤ start ≤ end ≤ 65535) and every
batchSize ≥ 1, `batch_ports` produces batches whose concatenation in order is
exactly the sequence start, start+1, …, end (contiguous, non-overlapping,
order-preserving, each port once), every batch of length batchSize except
possibly a shorter (nonempty) final batch. -/
theorem batch_ports_partition (start end_ bs : Nat) (h1 : 1 ≤ start) (h2 : start ≤ end_)
    (h3 : end_ ≤ 65535) (hbs : 1 ≤ bs) :
    ∃ batches, batch_ports start end_ bs = Except.ok batches ∧
      batches.flatten = List.range' start (end_ + 1 - start) ∧
      (∀ b ∈ batches.dropLast, b.length = bs) ∧
      (∀ b ∈ batches, b.length ≤ bs ∧ b ≠ []) := by
  have hbs0 : bs ≠ 0 := by omega
  refine ⟨chunkRec (bs - 1) (List.range' start (end_ + 1 - start)), ?_, ?_, ?_, ?_⟩
  · simp only [batch_ports]
    rw [if_neg hbs0]
    congr 1
    exact sliceMap_eq_chunkRec bs hbs _ _ le_rfl
  · exact chunkRec_flatten (bs - 1) _
  · intro b hb
    have := chunkRec_dropLast_len (bs - 1) _ b hb
    rwa [Nat.sub_add_cancel hbs] at this
  · intro b hb
    have := chunkRec_mem_len (bs - 1) _ b hb
    rwa [Nat.sub_add_cancel hbs] at this

/-- Witness for C1: the range 1..10 batched in threes. -/
theorem batch_ports_partition_witness :
    (1 ≤ 1 ∧ 1 ≤ 10 ∧ 10 ≤ 65535 ∧ 1 ≤ 3) ∧
      ∃ batches, batch_ports 1 10 3 = Except.ok batches ∧
        batches.flatten = List.range' 1 (10 + 1 - 1) ∧
        (∀ b ∈ batches.dropLast, b.length = 3) ∧
        (∀ b ∈ batches, b.length ≤ 3 ∧ b ≠ []) :=
  ⟨by omega, batch_ports_partition 1 10 3 (by omega) (by omega) (by omega) (by omega)⟩

/-- C2 fails on the code: `fast_scan` derives `batch_size = max_threads // 2`
with no minimum, so for the configured concurrency 1 (admitted by `main`'s
clamp to [1, 500]) the batch size is 0 and Python's `range(0, n, 0)` raises
`ValueError`, aborting the scan instead of covering the range. -/
theorem fast_scan_fails_at_min_concurrency :
    main_model exampleNet "127.0.0.1" "1-100" 1 false
        = MainOutcome.crashed "ValueError: range() arg 3 must not be zero" ∧
      (1 : Nat) / 2 = 0 ∧
      (∀ (net : Net) (ip : String) (s e : Nat) (results : List ProbeResult),
        fast_scan net ip s e 1 results
          = Except.error "ValueError: range() arg 3 must not be zero") := by
  refine ⟨by decide, by decide, ?_⟩
  intro net ip s e results
  unfold fast_scan
  have h2 : (1 : Nat) / 2 = 0 := by decide
  rw [h2]
  simp [batch_ports]

/-- C3: on every successful probe the service is the static 23-entry table's
value at that port (or "Unknown" when absent — no table entry is itself
"Unknown"), the banner is captured from the connection exactly when the
service is recognized, and otherwise the banner is empty. -/
theorem scan_port_service_and_banner_gate (net : Net) (ip : String) (port : Nat) (c : Conn)
    (h : net.connect4 ip port = ConnectResult.connected c) :
    COMMON_PORTS.length = 23 ∧
    ∃ r, scan_port net ip port = some r ∧
      r.service = (COMMON_PORTS.lookup port).getD "Unknown" ∧
      (r.service ≠ "Unknown" → r.banner = get_banner c) ∧
      (r.service = "Unknown" → r.banner = "") ∧
      (r.service = "Unknown" ↔ port ∉ COMMON_PORTS.map Prod.fst) := by
  refine ⟨by decide, ?_⟩
  refine ⟨⟨ip, port, "open", lookupService port,
    if lookupService port ≠ "Unknown" then get_banner c else "", net.now⟩, ?_, rfl, ?_, ?_, ?_⟩
  · unfold scan_port
    rw [h]
  · intro hs
    exact if_pos hs
  · intro hs
    have hs2 : lookupService port = "Unknown" := hs
    exact if_neg (by simp [hs2])
  · exact lookup_unknown_iff COMMON_PORTS (by decide) port

/-- Witness for C3: port 22 on the example network maps to SSH with the
peer's banner captured. -/
theorem scan_port_service_and_banner_gate_witness :
    exampleNet.connect4 "127.0.0.1" 22 = ConnectResult.connected exampleConn ∧
    (COMMON_PORTS.length = 23 ∧
      ∃ r, scan_port exampleNet "127.0.0.1" 22 = some r ∧
        r.service = (COMMON_PORTS.lookup 22).getD "Unknown" ∧
        (r.service ≠ "Unknown" → r.banner = get_banner exampleConn) ∧
        (r.service = "Unknown" → r.banner = "") ∧
        (r.service = "Unknown" ↔ 22 ∉ COMMON_PORTS.map Prod.fst)) :=
  ⟨rfl, scan_port_service_and_banner_gate exampleNet "127.0.0.1" 22 exampleConn rfl⟩

/-- C4: `scan_port` is total — a timeout, refusal, or raised I/O error
yields `none`, never an error — and a worker probes every port of its batch
regardless of failures; `fast_scan` runs every batch, so sibling batches are
unaffected too. -/
theorem probe_failure_is_local (net : Net) (ip : String) (ports : List Nat)
    (results : List ProbeResult) :
    port_scan_worker net ip ports results
        = results ++ ports.filterMap (scan_port net ip) ∧
    (∀ port, net.connect4 ip port = ConnectResult.raised ∨
        net.connect4 ip port = ConnectResult.refusedOrTimeout →
      scan_port net ip port = none) ∧
    (∀ s e th, th / 2 ≠ 0 →
      ∃ batches, batch_ports s e (th / 2) = Except.ok batches ∧
        fast_scan net ip s e th results
          = Except.ok (results ++ batches.flatten.filterMap (scan_port net ip))) := by
  refine ⟨port_scan_worker_eq net ip ports results, ?_, ?_⟩
  · intro port hp
    unfold scan_port
    rcases hp with h | h <;> rw [h]
  · intro s e th hth
    exact fast_scan_ok_eq net ip s e th results hth

/-- Witness for C4: ports 9 (connect raises) and 24 (refused) do not stop
the worker from finding 22 open. -/
theorem probe_failure_is_local_witness :
    port_scan_worker exampleNet "127.0.0.1" [9, 22, 24] [] = [sshRecord] ∧
    scan_port exampleNet "127.0.0.1" 9 = none := by
  have h := probe_failure_is_local exampleNet "127.0.0.1" [9, 22, 24] []
  constructor
  · rw [h.1]
    decide
  · exact h.2.1 9 (Or.inl rfl)

/-- C5: `get_banner` reads at most 1024 bytes under the fixed 1-second
timeout, decodes them with a total (never-raising) tolerant decoder, returns
the whitespace-trimmed text, and collapses any read failure to the empty
string. -/
theorem get_banner_bounded_trimmed (c : Conn) :
    (c.recvFailsAt 1 = true → get_banner c = "") ∧
    (c.recvFailsAt 1 = false →
      get_banner c = String.mk (pyStripList (utf8DecodeIgnore (c.pending.take 1024)))) ∧
    (c.pending.take 1024).length ≤ 1024 ∧
    pyStripList (get_banner c).data = (get_banner c).data := by
  refine ⟨?_, ?_, List.length_take_le 1024 c.pending, ?_⟩
  · intro h
    unfold get_banner
    rw [if_pos h]
  · intro h
    unfold get_banner
    rw [if_neg (by simp [h])]
  · unfold get_banner
    by_cases h : c.recvFailsAt 1
    · rw [if_pos h]
      rfl
    · rw [if_neg h]
      exact pyStripList_idem _

/-- Witness for C5: the example connection's banner is read, decoded and
trimmed to "SSH-2.0". -/
theorem get_banner_bounded_trimmed_witness :
    exampleConn.recvFailsAt 1 = false ∧
    get_banner exampleConn
      = String.mk (pyStripList (utf8DecodeIgnore (exampleConn.pending.take 1024))) ∧
    get_banner exampleConn = "SSH-2.0" :=
  ⟨rfl, (get_banner_bounded_trimmed exampleConn).2.1 rfl, by decide⟩

/-- C6 fails on the code: the results collection is the process-wide
`scan_results` list, so a second `fast_scan` invocation in the same process
appends to the records accumulated by the first instead of starting from an
empty collection — the two runs' collections are not identical in content. -/
theorem global_results_accumulate :
    fast_scan exampleNet "127.0.0.1" 22 22 4 [] = Except.ok [sshRecord] ∧
    fast_scan exampleNet "127.0.0.1" 22 22 4 [sshRecord]
      = Except.ok [sshRecord, sshRecord] ∧
    [sshRecord, sshRecord] ≠ [sshRecord] :=
  ⟨by decide, by decide, by decide⟩

/-- C7: an invalid address, a malformed port specification, or an
out-of-bounds range makes `main` stop with a diagnostic before `fast_scan`
is reached — the outcome is one of the three validation diagnostics, never a
scan (and never the crash that only `fast_scan` can produce). -/
theorem main_rejects_invalid_input (net : Net) (ip ports : String) (threads : Int) (b : Bool)
    (h : validate_ip ip = false ∨ parsePorts ports = none ∨
      ∃ s e, parsePorts ports = some (s, e) ∧ (s < 1 ∨ e > 65535 ∨ s > e)) :
    main_model net ip ports threads b = MainOutcome.invalidIP ∨
    main_model net ip ports threads b = MainOutcome.invalidPorts ∨
    main_model net ip ports threads b = MainOutcome.invalidRange := by
  unfold main_model
  by_cases hip : validate_ip ip
  · rcases h with h | h | h
    · rw [hip] at h
      exact absurd h (by simp)
    · rw [hip, h]
      simp
    · obtain ⟨s, e, hpe, hb⟩ := h
      rw [hip, hpe]
      simp only [Bool.not_true, Bool.false_eq_true, if_false]
      have hcond : (decide (s < 1) || decide (e > 65535) || decide (s > e)) = true := by
        rcases hb with h | h | h <;> simp [h]
      rw [if_pos (by simpa using hcond)]
      simp
  · have hip2 : validate_ip ip = false := by
      simpa using hip
    rw [hip2]
    simp

/-- Witness for C7: a malformed dotted quad is rejected before any scan. -/
theorem main_rejects_invalid_input_witness :
    validate_ip "999.0.0.1" = false ∧
    (main_model exampleNet "999.0.0.1" "80" 200 false = MainOutcome.invalidIP ∨
     main_model exampleNet "999.0.0.1" "80" 200 false = MainOutcome.invalidPorts ∨
     main_model exampleNet "999.0.0.1" "80" 200 false = MainOutcome.invalidRange) :=
  ⟨by decide,
    main_rejects_invalid_input exampleNet "999.0.0.1" "80" 200 false (Or.inl (by decide))⟩

/-- C8: with appends modelled as atomic (they run under the single
`results_lock`), every interleaving of the N workers' appends that runs to
completion (the `concurrent.futures.wait` join before results are read)
leaves the shared collection holding exactly the records all workers
produced — none lost, none duplicated. -/
theorem concurrent_appends_lose_nothing (net : Net) (ip : String)
    (batches : List (List Nat)) (sched : List Nat)
    (hc : schedComplete
      ⟨batches.map (fun bt => bt.filterMap (scan_port net ip)), []⟩ sched = true) :
    ((runSched ⟨batches.map (fun bt => bt.filterMap (scan_port net ip)), []⟩ sched).shared).Perm
      (batches.flatten.filterMap (scan_port net ip)) := by
  set s0 : SchedState := ⟨batches.map (fun bt => bt.filterMap (scan_port net ip)), []⟩ with hs0
  have h1 := runSched_perm sched s0
  have h2 := schedComplete_flatten_nil s0 sched hc
  rw [h2, List.append_nil] at h1
  have h3 : s0.shared ++ s0.queues.flatten
      = batches.flatten.filterMap (scan_port net ip) := by
    rw [hs0]
    simp only [List.nil_append]
    exact (List.filterMap_flatten _ _).symm
  rwa [h3] at h1

/-- Witness for C8: two workers interleaved under schedule [1, 0, 1]. -/
theorem concurrent_appends_lose_nothing_witness :
    schedComplete
        ⟨[[22], [24, 22]].map (fun bt => bt.filterMap (scan_port exampleNet "127.0.0.1")), []⟩
        [1, 0, 1] = true ∧
    ((runSched
        ⟨[[22], [24, 22]].map (fun bt => bt.filterMap (scan_port exampleNet "127.0.0.1")), []⟩
        [1, 0, 1]).shared).Perm
      ([[22], [24, 22]].flatten.filterMap (scan_port exampleNet "127.0.0.1")) :=
  ⟨by decide,
    concurrent_appends_lose_nothing exampleNet "127.0.0.1" [[22], [24, 22]] [1, 0, 1] (by decide)⟩

/-- C9 fails on the code: `parse_arguments` defines `--banner` but `main`
and `fast_scan` never read it, so the flag does not reach the scan engine;
with the flag unset the scan still captures a nonempty banner for a
recognized service. -/
theorem banner_flag_unused :
    (∀ (net : Net) (ip ports : String) (threads : Int),
      main_model net ip ports threads true = main_model net ip ports threads false) ∧
    main_model exampleNet "127.0.0.1" "22" 200 false = MainOutcome.scanned [sshRecord] ∧
    sshRecord.banner = "SSH-2.0" :=
  ⟨fun _ _ _ _ => rfl, by decide, by decide⟩

/-- C10: `validate_ip` accepts IPv6 literals, but `scan_port` opens an
AF_INET socket unconditionally, whose connect raises on a v6 literal; hence
a syntactically valid IPv6 target passes validation, yet every probe returns
`none` and a whole scan of it adds no record at all. -/
theorem ipv6_target_never_reports_open (net : Net) (ip : String)
    (h4 : pton4 ip = false) (h6 : pton6 ip = true) :
    validate_ip ip = true ∧
    (∀ port, scan_port net ip port = none) ∧
    (∀ (s e th : Nat) (results : List ProbeResult), th / 2 ≠ 0 →
      fast_scan net ip s e th results = Except.ok results) := by
  have hnone : ∀ port, scan_port net ip port = none := by
    intro port
    unfold scan_port
    rw [net.afInetRejectsNonV4 ip port h4 h6]
  refine ⟨by simp [validate_ip, h4, h6], hnone, ?_⟩
  intro s e th results hth
  obtain ⟨bt, hb, hfs⟩ := fast_scan_ok_eq net ip s e th results hth
  rw [hfs]
  have : bt.flatten.filterMap (scan_port net ip) = [] :=
    List.filterMap_eq_nil_iff.mpr (fun a _ => hnone a)
  rw [this, List.append_nil]

/-- Witness for C10: "::1" validates, yet no probe of it ever succeeds and a
scan of it yields nothing. -/
theorem ipv6_target_never_reports_open_witness :
    pton4 "::1" = false ∧ pton6 "::1" = true ∧
    validate_ip "::1" = true ∧
    scan_port exampleNet "::1" 80 = none ∧
    fast_scan exampleNet "::1" 1 3 4 [] = Except.ok [] := by
  have h := ipv6_target_never_reports_open exampleNet "::1" (by decide) (by decide)
  exact ⟨by decide, by decide, h.1, h.2.1 80, h.2.2 1 3 4 [] (by decide)⟩
